import Mathlib

/-
  Verification development for the social_crontab repository.

  Shallow embedding of the queue store (src/socialcli/core/storage.py) and of
  the scheduling engine (src/socialcli/core/scheduler_daemon.py).

  Modelling conventions:
  * ISO-8601 timestamp strings are ordered; both the string comparisons in
    storage.py (get_pending_comments, prune_scheduled_posts) and the
    datetime.fromisoformat comparisons in scheduler_daemon.py respect the same
    chronological order on well-formed ISO strings, so timestamps are modelled
    as Nat (in minutes, so that timedelta(minutes=5) is the constant 5).
  * A JSON record field that may be ABSENT is an outer Option; a field that is
    present but null is an inner Option value of none.  Python truthiness of a
    string field (None or the empty string are falsy) is the helper truthy.
  * The created_at / updated_at bookkeeping timestamps that the store stamps on
    write are not modelled; no claim mentions them.
  * uuid.uuid4() is nondeterministic; each call site receives the generated
    value as an explicit argument (freshness is a hypothesis where needed).
  * The file system, the content parser and the platform gateway are modelled
    by an environment of pure response functions, and the engine functions
    additionally return the trace of gateway calls and of store updates that
    the run performs, so that claims about which calls were made are statable.
  * Python exceptions raised by a modelled operation are Except.error values;
    a missing publish_at field would raise inside a whole engine phase in the
    source (aborting that phase through the outer try), a state no claim
    exercises: the due-predicate is false on such records and theorems that
    need it assume publish_at present.
-/

/-- A scheduled item as stored in scheduled_posts.json, in fully migrated form
(all schema fields present).  Mirrors the dict built by
Storage.create_scheduled_post. -/
structure Item where
  id : Nat
  uuid : String
  type : String
  provider : String
  author : String
  file_path : String
  publish_at : Option Nat
  status : String
  urn : Option String
  parent_uuid : Option String
  blocked_reason : Option String
deriving Repr, DecidableEq

/-- Python truthiness of an optional string: None and the empty string are
falsy.  Returns the string when truthy. -/
def truthy : Option String → Option String
  | none => none
  | some s => if s.isEmpty then none else some s

/-- The keyword arguments accepted by Storage.update_scheduled_post that the
daemon and the claims use; an outer none means the keyword was not passed. -/
structure UpdateArgs where
  status : Option String
  urn : Option (Option String)
  blocked_reason : Option (Option String)
  type : Option String
  parent_uuid : Option (Option String)
deriving Repr, DecidableEq

/-- Update with only status set. -/
def UpdateArgs.ofStatus (s : String) : UpdateArgs :=
  ⟨some s, none, none, none, none⟩

/-- Update with only urn set. -/
def UpdateArgs.ofUrn (u : String) : UpdateArgs :=
  ⟨none, some (some u), none, none, none⟩

/-- Update with status and blocked_reason set. -/
def UpdateArgs.ofStatusReason (s r : String) : UpdateArgs :=
  ⟨some s, none, some (some r), none, none⟩

/-- Update with only blocked_reason set. -/
def UpdateArgs.ofReason (r : String) : UpdateArgs :=
  ⟨none, none, some (some r), none, none⟩

/-- Apply the passed keyword arguments to a record, as dict.update does. -/
def applyUpdate (p : Item) (u : UpdateArgs) : Item :=
  ⟨p.id, p.uuid, u.type.getD p.type, p.provider, p.author, p.file_path,
   p.publish_at,
   u.status.getD p.status,
   u.urn.getD p.urn,
   u.parent_uuid.getD p.parent_uuid,
   u.blocked_reason.getD p.blocked_reason⟩

/-- Storage.update_scheduled_post: update the first record with the given id,
persist, return true; false when the id is absent. -/
def updateScheduledPost : List Item → Nat → UpdateArgs → List Item × Bool
  | [], _, _ => ([], false)
  | p :: ps, pid, u =>
    if p.id = pid then (applyUpdate p u :: ps, true)
    else
      let r := updateScheduledPost ps pid u
      (p :: r.1, r.2)

/-- Storage._build_uuid_index as a lookup function: dict insertion iterates the
list in order, so the last record carrying a uuid wins. -/
def uuidIndex (posts : List Item) (u : String) : Option Item :=
  posts.foldl (fun acc p => if p.uuid = u then some p else acc) none

/-- Whether an item is due at the evaluation instant: publish_at is at most
now.  (In the source a missing publish_at raises inside the engine phase; the
predicate is false there, and claims that reach it assume the field present.) -/
def dueAt (p : Item) (now : Nat) : Bool :=
  match p.publish_at with
  | some t => t ≤ now
  | none => false

/-- Stable insertion into a sorted list: the new element goes in front of the
first element it compares le to, so equal keys keep their earlier-first order,
matching the stability of the sort in list.sort. -/
def insertLe {α : Type} (le : α → α → Bool) (a : α) : List α → List α
  | [] => [a]
  | b :: bs => if le a b then a :: b :: bs else b :: insertLe le a bs

/-- Stable sort by a boolean le, extensionally the stable sort used by
list.sort(key=...). -/
def sortByLe {α : Type} (le : α → α → Bool) : List α → List α
  | [] => []
  | a :: as => insertLe le a (sortByLe le as)

/-- The sort key of get_pending_comments: x.get(publish_at-key, empty default),
the default ordering first; with Nat timestamps the default is 0. -/
def pubKey (p : Item) : Nat :=
  p.publish_at.getD 0

/-- Storage.get_pending_comments: pending comments due by the given instant,
sorted by publish_at ascending (stable sort). -/
def getPendingComments (posts : List Item) (now : Nat) : List Item :=
  sortByLe (fun a b => pubKey a ≤ pubKey b)
    (posts.filter fun p =>
      p.type = "comment" && p.status = "pending" && dueAt p now)

/-- The result dict of a gateway publish call; only the optional id key (and
for posts an ignored url) matters to the engine. -/
structure PubResult where
  id : Option String
deriving Repr, DecidableEq

/-- A call made to the platform gateway, recorded in execution traces. -/
inductive GwCall
  | uploadMedia (path : String)
  | publishPost (content : String) (mediaIds : List String)
  | publishComment (target : String) (text : String)
deriving Repr, DecidableEq

/-- A store mutation performed by the engine, recorded in execution traces. -/
inductive StoreOp
  | update (id : Nat) (u : UpdateArgs)
deriving Repr, DecidableEq

/-- The pure environment standing for the file system, the content parser
(PostParser), provider resolution (_get_provider) and the platform gateway. -/
structure Env where
  providerOk : String → Bool
  fileExists : String → Bool
  parseOk : String → Bool
  content : String → String
  media : String → List String
  resolve : String → String → String
  upload : String → Except String String
  post : String → List String → Except String PubResult
  comment : String → String → Except String PubResult

/-- Outcome of executing one item: the boolean the execute helper returns, the
store state after its own updates, and the gateway-call and store-op traces. -/
structure ExecOut where
  ok : Bool
  state : List Item
  gw : List GwCall
  ops : List StoreOp
deriving Repr, DecidableEq

/-- Outcome of an engine phase or cycle. -/
structure CycleOut where
  state : List Item
  gw : List GwCall
  ops : List StoreOp
deriving Repr, DecidableEq

/-- The media upload loop of SchedulerDaemon._execute_post: resolve each
declared media path in order, raise on a missing file before any upload call
for it, upload, and stop at the first failure (all-or-nothing).  Returns the
collected media ids or an error, with the trace of upload calls made. -/
def uploadLoop (env : Env) (postPath : String) :
    List String → Except String (List String) × List GwCall
  | [] => (Except.ok [], [])
  | mf :: rest =>
    let mpath := env.resolve postPath mf
    if env.fileExists mpath then
      match env.upload mpath with
      | Except.error e => (Except.error e, [GwCall.uploadMedia mpath])
      | Except.ok urn =>
        let r := uploadLoop env postPath rest
        ((r.1.map fun us => urn :: us), GwCall.uploadMedia mpath :: r.2)
    else
      (Except.error ("Media file not found: " ++ mpath), [])

/-- SchedulerDaemon._execute_post on one snapshot item: existence check, parse,
provider resolution, the all-or-nothing media loop, the publish call, and the
urn write-back when the result has an id key.  Any failure returns false with
no further effect (the except branch of the source). -/
def executePost (env : Env) (st : List Item) (p : Item) : ExecOut :=
  if env.fileExists p.file_path then
    if env.parseOk p.file_path then
      let mediaFiles := env.media p.file_path
      if env.providerOk p.provider then
        match uploadLoop env p.file_path mediaFiles with
        | (Except.error _, calls) => ⟨false, st, calls, []⟩
        | (Except.ok mediaIds, calls) =>
          if mediaIds.length ≠ mediaFiles.length then ⟨false, st, calls, []⟩
          else
            match env.post (env.content p.file_path) mediaIds with
            | Except.error _ =>
              ⟨false, st,
               calls ++ [GwCall.publishPost (env.content p.file_path) mediaIds], []⟩
            | Except.ok res =>
              match res.id with
              | some rid =>
                ⟨true,
                 (updateScheduledPost st p.id (UpdateArgs.ofUrn rid)).1,
                 calls ++ [GwCall.publishPost (env.content p.file_path) mediaIds],
                 [StoreOp.update p.id (UpdateArgs.ofUrn rid)]⟩
              | none =>
                ⟨true, st,
                 calls ++ [GwCall.publishPost (env.content p.file_path) mediaIds],
                 []⟩
      else ⟨false, st, [], []⟩
    else ⟨false, st, [], []⟩
  else ⟨false, st, [], []⟩

/-- One iteration of the due-post loop of _process_posts: execute then persist
the published/failed status from the returned boolean. -/
def processPostItem (env : Env) (st : List Item) (p : Item) : CycleOut :=
  let r := executePost env st p
  let newStatus := if r.ok then "published" else "failed"
  ⟨(updateScheduledPost r.state p.id (UpdateArgs.ofStatus newStatus)).1,
   r.gw,
   r.ops ++ [StoreOp.update p.id (UpdateArgs.ofStatus newStatus)]⟩

/-- Fold the due-post loop over the snapshot list, threading the store state
and concatenating the traces. -/
def runPostItems (env : Env) : List Item → List Item → CycleOut
  | st, [] => ⟨st, [], []⟩
  | st, p :: rest =>
    let r1 := processPostItem env st p
    let r2 := runPostItems env r1.state rest
    ⟨r2.state, r1.gw ++ r2.gw, r1.ops ++ r2.ops⟩

/-- The due pending posts of _process_posts: the pending snapshot filtered to
type post and then to due items, in stored order (no sort). -/
def duePosts (st : List Item) (now : Nat) : List Item :=
  ((st.filter fun p => p.status = "pending").filter
      fun p => p.type = "post").filter
    fun p => dueAt p now

/-- SchedulerDaemon._process_posts: execute every due pending post of the
snapshot in stored order. -/
def processPosts (env : Env) (st : List Item) (now : Nat) : CycleOut :=
  runPostItems env st (duePosts st now)

/-- SchedulerDaemon._execute_comment on one snapshot comment with its resolved
parent: require a truthy parent urn (else record the blocked reason and return
false), existence check, parse, provider resolution, the publish-comment call,
and the urn write-back when the result has an id key. -/
def executeComment (env : Env) (st : List Item) (c : Item) (parent : Item) :
    ExecOut :=
  match truthy parent.urn with
  | none =>
    let msg := "Parent post " ++ toString parent.id ++ " has no URN available"
    ⟨false,
     (updateScheduledPost st c.id (UpdateArgs.ofReason msg)).1,
     [],
     [StoreOp.update c.id (UpdateArgs.ofReason msg)]⟩
  | some urn =>
    if env.fileExists c.file_path then
      if env.parseOk c.file_path then
        if env.providerOk c.provider then
          match env.comment urn (env.content c.file_path) with
          | Except.error _ =>
            ⟨false, st, [GwCall.publishComment urn (env.content c.file_path)], []⟩
          | Except.ok res =>
            match res.id with
            | some rid =>
              ⟨true,
               (updateScheduledPost st c.id (UpdateArgs.ofUrn rid)).1,
               [GwCall.publishComment urn (env.content c.file_path)],
               [StoreOp.update c.id (UpdateArgs.ofUrn rid)]⟩
            | none =>
              ⟨true, st, [GwCall.publishComment urn (env.content c.file_path)], []⟩
        else ⟨false, st, [], []⟩
      else ⟨false, st, [], []⟩
    else ⟨false, st, [], []⟩

/-- One iteration of the comment loop of _process_comments: resolve the parent
by uuid in the current state and dispatch on its status; a pending (or any
non-terminal) parent defers the comment with no effect. -/
def processCommentItem (env : Env) (st : List Item) (c : Item) : CycleOut :=
  match truthy c.parent_uuid with
  | none =>
    let u := UpdateArgs.ofStatusReason "failed" "No parent_uuid specified"
    ⟨(updateScheduledPost st c.id u).1, [], [StoreOp.update c.id u]⟩
  | some pu =>
    match uuidIndex st pu with
    | none =>
      let u := UpdateArgs.ofStatusReason "failed"
        ("Parent post " ++ pu ++ " not found")
      ⟨(updateScheduledPost st c.id u).1, [], [StoreOp.update c.id u]⟩
    | some parent =>
      if parent.status = "published" then
        let r := executeComment env st c parent
        let newStatus := if r.ok then "published" else "failed"
        ⟨(updateScheduledPost r.state c.id (UpdateArgs.ofStatus newStatus)).1,
         r.gw,
         r.ops ++ [StoreOp.update c.id (UpdateArgs.ofStatus newStatus)]⟩
      else if parent.status = "failed" then
        let u := UpdateArgs.ofStatusReason "failed"
          ("Parent post " ++ toString parent.id ++ " failed to publish")
        ⟨(updateScheduledPost st c.id u).1, [], [StoreOp.update c.id u]⟩
      else
        ⟨st, [], []⟩

/-- Fold the comment loop over its snapshot list, threading state and traces. -/
def runCommentItems (env : Env) : List Item → List Item → CycleOut
  | st, [] => ⟨st, [], []⟩
  | st, c :: rest =>
    let r1 := processCommentItem env st c
    let r2 := runCommentItems env r1.state rest
    ⟨r2.state, r1.gw ++ r2.gw, r1.ops ++ r2.ops⟩

/-- SchedulerDaemon._process_comments: re-read the store (so post-phase writes
are visible) and process every due pending comment. -/
def processComments (env : Env) (st : List Item) (now : Nat) : CycleOut :=
  runCommentItems env st (getPendingComments st now)

/-- SchedulerDaemon._process_pending_posts, the body of one run_once cycle:
the post phase fully precedes the comment phase, which runs on the state the
post phase produced. -/
def processPendingPosts (env : Env) (st : List Item) (now : Nat) : CycleOut :=
  let r1 := processPosts env st now
  let r2 := processComments env r1.state now
  ⟨r2.state, r1.gw ++ r2.gw, r1.ops ++ r2.ops⟩

/-- The id assigned by create: max of the existing ids (0 when empty) plus 1. -/
def nextId (posts : List Item) : Nat :=
  (posts.foldl (fun m p => max m p.id) 0) + 1

/-- The timing safety delay of create, timedelta(minutes=5) with timestamps in
minutes. -/
def minDelay : Nat := 5

/-- The uuid create stores: the supplied one when truthy, else the freshly
generated value. -/
def effUuid (uuid_str : Option String) (gen : String) : String :=
  match truthy uuid_str with
  | none => gen
  | some s => s

/-- Storage.create_scheduled_post.  Validation happens before any read or
write, so every error branch returns the queue unchanged together with the
raised message; the success branch appends the new record and returns its id
and uuid.  gen is the value uuid.uuid4() would produce for this call. -/
def createScheduledPost (posts : List Item) (provider author file_path : String)
    (publish_at : Nat) (status : String) (uuid_str : Option String)
    (post_type : String) (parent_uuid : Option String) (urn : Option String)
    (blocked_reason : Option String) (gen : String) :
    List Item × Except String (Nat × String) :=
  if post_type ≠ "post" ∧ post_type ≠ "comment" then
    (posts, Except.error ("Invalid post type: " ++ post_type))
  else if post_type = "comment" ∧ truthy parent_uuid = none then
    (posts, Except.error "Comments must have a parent_uuid")
  else if post_type = "post" ∧ (truthy parent_uuid).isSome then
    (posts, Except.error "Posts cannot have a parent_uuid")
  else
    let proceed : List Item × Except String (Nat × String) :=
      (posts ++ [⟨nextId posts, effUuid uuid_str gen, post_type, provider,
                  author, file_path, some publish_at, status, urn, parent_uuid,
                  blocked_reason⟩],
       Except.ok (nextId posts, effUuid uuid_str gen))
    if post_type = "comment" then
      match truthy parent_uuid with
      | none => (posts, Except.error "unreachable")
      | some pu =>
        match uuidIndex posts pu with
        | none =>
          (posts, Except.error ("Parent post with UUID " ++ pu ++ " not found"))
        | some parent =>
          match parent.publish_at with
          | none =>
            -- datetime.fromisoformat(parent[publish_at-key]) raises here
            (posts, Except.error "KeyError: publish_at")
          | some pt =>
            if publish_at < pt + minDelay then
              (posts, Except.error
                "Comment must be scheduled at least 5 minutes after parent post")
            else proceed
    else proceed

/-- The filter of Storage.prune_scheduled_posts: status must match, a record
without a truthy publish_at is never pruned, a given before bound requires
publish_at strictly below it, a given after bound requires publish_at strictly
above it. -/
def shouldPrune (status : String) (before after : Option Nat) (p : Item) :
    Bool :=
  if p.status ≠ status then false
  else
    match p.publish_at with
    | none => false
    | some t =>
      (match before with
       | some b => decide (t < b)
       | none => true) &&
      (match after with
       | some a => decide (a < t)
       | none => true)

/-- Storage.prune_scheduled_posts: drop every record the filter selects,
return the surviving list, the count removed, and whether a write happened
(only when the count is positive). -/
def pruneScheduledPosts (posts : List Item) (before after : Option Nat)
    (status : String) : List Item × Nat × Bool :=
  let kept := posts.filter fun p => !(shouldPrune status before after p)
  let cnt := posts.length - kept.length
  (kept, cnt, decide (0 < cnt))

/-- A raw record as read from scheduled_posts.json before lazy migration: the
five lazily migrated fields may be absent (outer none); for the nullable ones
some none is present-with-null. -/
structure RawPost where
  id : Nat
  provider : String
  author : String
  file_path : String
  publish_at : Option Nat
  status : String
  uuid : Option String
  type : Option String
  urn : Option (Option String)
  parent_uuid : Option (Option String)
  blocked_reason : Option (Option String)
deriving Repr, DecidableEq

/-- Whether any of the five migrated fields is absent, i.e. whether
_ensure_post_fields would add a key to this record. -/
def RawPost.missingAny (p : RawPost) : Bool :=
  p.uuid.isNone || p.type.isNone || p.urn.isNone || p.parent_uuid.isNone ||
    p.blocked_reason.isNone

/-- Storage._ensure_post_fields: fill each absent field with its default
(uuid a fresh generated value, type the post kind, the rest null), leaving
every present field untouched. -/
def ensurePostFields (p : RawPost) (freshUuid : String) : RawPost :=
  ⟨p.id, p.provider, p.author, p.file_path, p.publish_at, p.status,
   some (p.uuid.getD freshUuid),
   some (p.type.getD "post"),
   some (p.urn.getD none),
   some (p.parent_uuid.getD none),
   some (p.blocked_reason.getD none)⟩

/-- Storage._read_scheduled_posts on the loaded record list: migrate each
record (gen i is the uuid the i-th _generate_uuid call would return) and
report whether any record gained a key, which is exactly when the store
writes the migrated document back. -/
def readScheduledPosts (gen : Nat → String) (posts : List RawPost) :
    List RawPost × Bool :=
  (posts.enum.map fun ip => ensurePostFields ip.2 (gen ip.1),
   posts.any RawPost.missingAny)

/-- The kind/parent invariant on a migrated item: exactly a post with null
parent_uuid or a comment with non-null parent_uuid. -/
def Item.kindOk (p : Item) : Bool :=
  match p.type, p.parent_uuid with
  | "post", none => true
  | "comment", some _ => true
  | _, _ => false

/-- The kind/parent invariant read on a raw record whose migrated fields are
present. -/
def RawPost.kindOk (p : RawPost) : Bool :=
  match p.type, p.parent_uuid with
  | some "post", some none => true
  | some "comment", some (some _) => true
  | _, _ => false

/-- Modelled from the spec: the prune selection predicate exactly as the spec
states it — status equal AND (before absent OR publishAt below before) AND
(after absent OR publishAt above after) — to be compared with the
shouldPrune filter translated from the source. -/
def specPrunes (status : String) (before after : Option Nat) (p : Item) :
    Bool :=
  p.status = status &&
  (match before with
   | none => true
   | some b => decide (p.publish_at.getD 0 < b)) &&
  (match after with
   | none => true
   | some a => decide (a < p.publish_at.getD 0))

/-- The ids of the status-writing store updates of a trace, in order; urn
write-backs carry no status keyword and are skipped. -/
def statusOpIds (ops : List StoreOp) : List Nat :=
  ops.filterMap fun o =>
    match o with
    | StoreOp.update i u => if u.status.isSome then some i else none

/-- The ordering the stable comment sort guarantees relative to a base
relation Q on the input: strictly smaller key, or equal key and Q (the two
elements kept their input order). -/
def keyStable {α : Type} (key : α → Nat) (Q : α → α → Prop) (x y : α) : Prop :=
  key x < key y ∨ (key x = key y ∧ Q x y)

/- Fixtures: concrete queues, records and stub environments used by the
scenario theorems and the witnesses. -/

/-- A due pending post (scenario A / chain scenario). -/
def postP1 : Item :=
  ⟨1, "p1", "post", "linkedin", "me", "post.md", some 10, "pending", none,
   none, none⟩

/-- A due pending comment referencing postP1 (chain scenario). -/
def commentC1 : Item :=
  ⟨2, "c1", "comment", "linkedin", "me", "cmt.md", some 20, "pending", none,
   some "p1", none⟩

/-- A stub environment whose gateway succeeds, returning remote id urn:1 for
posts and urn:c1 for comments. -/
def envOk : Env :=
  ⟨fun _ => true, fun _ => true, fun _ => true, fun _ => "hello", fun _ => [],
   fun _ mf => mf, fun _ => Except.ok "m1",
   fun _ _ => Except.ok ⟨some "urn:1"⟩,
   fun _ _ => Except.ok ⟨some "urn:c1"⟩⟩

/-- A due pending post declaring one media attachment (media witness). -/
def postM : Item :=
  ⟨1, "pm", "post", "linkedin", "me", "m.md", some 10, "pending", none, none,
   none⟩

/-- A second due pending post with no media (isolation witness). -/
def postN : Item :=
  ⟨2, "pn", "post", "linkedin", "me", "n.md", some 10, "pending", none, none,
   none⟩

/-- A stub environment where the declared media file of postM is missing while
everything else succeeds. -/
def envMediaMissing : Env :=
  ⟨fun _ => true, fun f => f ≠ "pic.png", fun _ => true, fun _ => "hello",
   fun f => if f = "m.md" then ["pic.png"] else [],
   fun _ mf => mf, fun _ => Except.ok "m1",
   fun _ _ => Except.ok ⟨some "urn:1"⟩,
   fun _ _ => Except.ok ⟨some "urn:c1"⟩⟩

/-- A stub environment where every execution attempt fails at the missing
content file (used for the ordering counterexample). -/
def envAllMissing : Env :=
  ⟨fun _ => true, fun _ => false, fun _ => true, fun _ => "hello", fun _ => [],
   fun _ mf => mf, fun _ => Except.ok "m1",
   fun _ _ => Except.ok ⟨some "urn:1"⟩,
   fun _ _ => Except.ok ⟨some "urn:c1"⟩⟩

/-- A stub environment whose post publish succeeds but whose result dict has
no id key. -/
def envNoId : Env :=
  ⟨fun _ => true, fun _ => true, fun _ => true, fun _ => "hello", fun _ => [],
   fun _ mf => mf, fun _ => Except.ok "m1",
   fun _ _ => Except.ok ⟨none⟩,
   fun _ _ => Except.ok ⟨none⟩⟩

/-- A due pending comment with no parent_uuid (comment-phase witness). -/
def orphanComment : Item :=
  ⟨3, "c3", "comment", "linkedin", "me", "c3.md", some 10, "pending", none,
   none, none⟩

/-- A raw legacy record that lacks the type field while carrying a non-null
parent_uuid (migration counterexample input). -/
def rawMixed : RawPost :=
  ⟨7, "linkedin", "me", "f.md", some 100, "pending", some "u7", none,
   some none, some (some "up"), some none⟩

/-- A raw legacy record lacking all five migrated fields. -/
def rawLegacy : RawPost :=
  ⟨3, "linkedin", "me", "g.md", some 50, "published", none, none, none, none,
   none⟩

/-- A fully migrated raw record. -/
def rawFull : RawPost :=
  ⟨4, "linkedin", "me", "h.md", some 60, "pending", some "u4", some "post",
   some none, some none, some none⟩

/-- A one-item queue whose item carries uuid u0 (collision counterexample). -/
def queueU0 : List Item :=
  [⟨1, "u0", "post", "linkedin", "me", "a.md", some 5, "pending", none, none,
    none⟩]

/-- Two due pending posts stored with the later-due one first (ordering
counterexample input). -/
def queueUnsorted : List Item :=
  [⟨1, "a", "post", "linkedin", "me", "fa.md", some 10, "pending", none, none,
    none⟩,
   ⟨2, "b", "post", "linkedin", "me", "fb.md", some 5, "pending", none, none,
    none⟩]

/-- The scenario F queue: three published items dated 2025-10-15, 2025-10-20,
2025-10-25 and one pending item dated 2025-10-18 (dates as yyyymmdd). -/
def queueF : List Item :=
  [⟨1, "f1", "post", "linkedin", "me", "1.md", some 20251015, "published",
    none, none, none⟩,
   ⟨2, "f2", "post", "linkedin", "me", "2.md", some 20251020, "published",
    none, none, none⟩,
   ⟨3, "f3", "post", "linkedin", "me", "3.md", some 20251025, "published",
    none, none, none⟩,
   ⟨4, "f4", "post", "linkedin", "me", "4.md", some 20251018, "pending", none,
    none, none⟩]

/-- C1: one cycle over a queue with a due pending post and a due pending
comment referencing it publishes the post with remote id urn:1, then — in the
same cycle, posts fully before comments — publishes the comment with the
gateway called at target urn:1. -/
theorem cycle_chain_post_then_comment :
    (processPendingPosts envOk [postP1, commentC1] 30).state =
      [⟨1, "p1", "post", "linkedin", "me", "post.md", some 10, "published",
        some "urn:1", none, none⟩,
       ⟨2, "c1", "comment", "linkedin", "me", "cmt.md", some 20, "published",
        some "urn:c1", some "p1", none⟩] ∧
    (processPendingPosts envOk [postP1, commentC1] 30).gw =
      [GwCall.publishPost "hello" [], GwCall.publishComment "urn:1" "hello"] := by
  decide

/-- C3: in the comment phase the outcome of a due pending comment is decided
by parent resolution: missing parent_uuid fails it with the no-parent reason;
an unresolvable parent fails it naming the missing parent; a failed parent
fails it referencing the parent failure; a pending parent defers it with no
effect at all; a published parent without a truthy urn records the
no-identifier reason and then fails it. -/
theorem comment_phase_parent_resolution :
    ∀ (env : Env) (st : List Item) (c : Item),
    (truthy c.parent_uuid = none →
      processCommentItem env st c =
        ⟨(updateScheduledPost st c.id
            (UpdateArgs.ofStatusReason "failed" "No parent_uuid specified")).1,
         [],
         [StoreOp.update c.id
            (UpdateArgs.ofStatusReason "failed" "No parent_uuid specified")]⟩) ∧
    (∀ pu, truthy c.parent_uuid = some pu → uuidIndex st pu = none →
      processCommentItem env st c =
        ⟨(updateScheduledPost st c.id
            (UpdateArgs.ofStatusReason "failed"
              ("Parent post " ++ pu ++ " not found"))).1,
         [],
         [StoreOp.update c.id
            (UpdateArgs.ofStatusReason "failed"
              ("Parent post " ++ pu ++ " not found"))]⟩) ∧
    (∀ pu parent, truthy c.parent_uuid = some pu →
      uuidIndex st pu = some parent → parent.status = "failed" →
      processCommentItem env st c =
        ⟨(updateScheduledPost st c.id
            (UpdateArgs.ofStatusReason "failed"
              ("Parent post " ++ toString parent.id ++ " failed to publish"))).1,
         [],
         [StoreOp.update c.id
            (UpdateArgs.ofStatusReason "failed"
              ("Parent post " ++ toString parent.id ++ " failed to publish"))]⟩) ∧
    (∀ pu parent, truthy c.parent_uuid = some pu →
      uuidIndex st pu = some parent → parent.status = "pending" →
      processCommentItem env st c = ⟨st, [], []⟩) ∧
    (∀ pu parent, truthy c.parent_uuid = some pu →
      uuidIndex st pu = some parent → parent.status = "published" →
      truthy parent.urn = none →
      processCommentItem env st c =
        ⟨(updateScheduledPost
            (updateScheduledPost st c.id
              (UpdateArgs.ofReason
                ("Parent post " ++ toString parent.id ++
                  " has no URN available"))).1
            c.id (UpdateArgs.ofStatus "failed")).1,
         [],
         [StoreOp.update c.id
            (UpdateArgs.ofReason
              ("Parent post " ++ toString parent.id ++ " has no URN available")),
          StoreOp.update c.id (UpdateArgs.ofStatus "failed")]⟩) := by
  intro env st c
  refine ⟨?_, ?_, ?_, ?_, ?_⟩
  · intro h1
    simp [processCommentItem, h1]
  · intro pu h1 h2
    simp [processCommentItem, h1, h2]
  · intro pu parent h1 h2 h3
    simp [processCommentItem, h1, h2, h3]
  · intro pu parent h1 h2 h3
    simp [processCommentItem, h1, h2, h3]
  · intro pu parent h1 h2 h3 h4
    simp [processCommentItem, executeComment, h1, h2, h3, h4]

/-- C3 witness: the comment with no parent_uuid is failed with the no-parent
reason by the comment phase. -/
theorem comment_phase_parent_resolution_witness :
    processCommentItem envOk [orphanComment] orphanComment =
      ⟨(updateScheduledPost [orphanComment] 3
          (UpdateArgs.ofStatusReason "failed" "No parent_uuid specified")).1,
       [],
       [StoreOp.update 3
          (UpdateArgs.ofStatusReason "failed" "No parent_uuid specified")]⟩ :=
  (comment_phase_parent_resolution envOk [orphanComment] orphanComment).1
    (by decide)

/-- C4: create raises a validation error for a comment without parent_uuid and
for a post with one, raises a parent-not-found error when the referenced
parent is absent, and raises a validation error when the comment is scheduled
less than five minutes after its parent; every such error leaves the queue
exactly as it was — the item is never persisted. -/
theorem create_validation_rejects_before_persist :
    ∀ (posts : List Item) (provider author fp : String) (pub : Nat)
      (st0 : String) (uuid_str parent_uuid urn br : Option String)
      (gen : String),
    (truthy parent_uuid = none →
      createScheduledPost posts provider author fp pub st0 uuid_str "comment"
          parent_uuid urn br gen =
        (posts, Except.error "Comments must have a parent_uuid")) ∧
    ((truthy parent_uuid).isSome →
      createScheduledPost posts provider author fp pub st0 uuid_str "post"
          parent_uuid urn br gen =
        (posts, Except.error "Posts cannot have a parent_uuid")) ∧
    (∀ pu, truthy parent_uuid = some pu → uuidIndex posts pu = none →
      createScheduledPost posts provider author fp pub st0 uuid_str "comment"
          parent_uuid urn br gen =
        (posts,
         Except.error ("Parent post with UUID " ++ pu ++ " not found"))) ∧
    (∀ pu parent pt, truthy parent_uuid = some pu →
      uuidIndex posts pu = some parent → parent.publish_at = some pt →
      pub < pt + minDelay →
      createScheduledPost posts provider author fp pub st0 uuid_str "comment"
          parent_uuid urn br gen =
        (posts,
         Except.error
           "Comment must be scheduled at least 5 minutes after parent post")) := by
  intro posts provider author fp pub st0 uuid_str parent_uuid urn br gen
  refine ⟨?_, ?_, ?_, ?_⟩
  · intro h1
    simp [createScheduledPost, h1]
  · intro h1
    simp [createScheduledPost, Option.isSome_iff_exists] at h1 ⊢
    obtain ⟨pu, hpu⟩ := h1
    simp [hpu]
  · intro pu h1 h2
    simp [createScheduledPost, h1, h2]
  · intro pu parent pt h1 h2 h3 h4
    simp [createScheduledPost, h1, h2, h3, h4]

/-- C4 witness: creating a comment without a parent_uuid over the one-item
queue is rejected with the queue unchanged. -/
theorem create_validation_rejects_before_persist_witness :
    createScheduledPost queueU0 "linkedin" "me" "c.md" 9 "pending" none
        "comment" none none none "g" =
      (queueU0, Except.error "Comments must have a parent_uuid") :=
  (create_validation_rejects_before_persist queueU0 "linkedin" "me" "c.md" 9
      "pending" none none none none "g").1 (by decide)

/-- C5 counterexample: lazy migration of a legacy record lacking the kind
field but carrying a non-null parent_uuid produces kind post with a non-null
parent_uuid, and an update passing a parent_uuid keyword turns an
invariant-satisfying post into a mismatched record — the invariant is not
preserved by every store operation. -/
theorem kind_invariant_not_preserved :
    RawPost.kindOk (ensurePostFields rawMixed "fresh") = false ∧
    (ensurePostFields rawMixed "fresh").type = some "post" ∧
    (ensurePostFields rawMixed "fresh").parent_uuid = some (some "up") ∧
    Item.kindOk postP1 = true ∧
    ((updateScheduledPost [postP1] 1
        ⟨none, none, none, none, some (some "zz")⟩).1.map Item.kindOk) =
      [false] := by
  decide

/-- C6 counterexample: create accepts a caller-supplied uuid that collides
with a stored item — it succeeds, leaving two items carrying uuid u0, and the
index then maps u0 to the later item only, so uuid to item is not a
bijection. -/
theorem create_accepts_colliding_uuid :
    (createScheduledPost queueU0 "linkedin" "me" "b.md" 6 "pending"
        (some "u0") "post" none none none "gen-1").2 = Except.ok (2, "u0") ∧
    (((createScheduledPost queueU0 "linkedin" "me" "b.md" 6 "pending"
        (some "u0") "post" none none none "gen-1").1.filter
          fun p => p.uuid = "u0").length = 2) ∧
    uuidIndex
        (createScheduledPost queueU0 "linkedin" "me" "b.md" 6 "pending"
          (some "u0") "post" none none none "gen-1").1 "u0" =
      some ⟨2, "u0", "post", "linkedin", "me", "b.md", some 6, "pending", none,
            none, none⟩ :=
  ⟨rfl, by decide, by decide⟩

/-- C9 counterexample: with two due pending posts stored later-due-first, the
post phase processes them in stored order — the post with publish_at 10 is
executed before the post with publish_at 5 — so due posts are not iterated
earliest-publishAt-first. -/
theorem posts_not_sorted_by_publish_at :
    (duePosts queueUnsorted 10).map (fun p => p.publish_at) =
      [some 10, some 5] ∧
    statusOpIds (processPosts envAllMissing queueUnsorted 10).ops = [1, 2] := by
  decide

/-- C10: when the gateway publish succeeds but its result has no id key, the
post phase performs a single status update marking the post published — no
urn write-back at all, so the urn stays null; when the result does carry an
id, the urn and the status are persisted by two separate store updates. -/
theorem publish_without_id_still_published :
    ∀ (env : Env) (st : List Item) (p : Item) (res : PubResult),
    env.fileExists p.file_path = true → env.parseOk p.file_path = true →
    env.providerOk p.provider = true → env.media p.file_path = [] →
    env.post (env.content p.file_path) [] = Except.ok res →
    (res.id = none →
      processPostItem env st p =
        ⟨(updateScheduledPost st p.id (UpdateArgs.ofStatus "published")).1,
         [GwCall.publishPost (env.content p.file_path) []],
         [StoreOp.update p.id (UpdateArgs.ofStatus "published")]⟩) ∧
    (∀ rid, res.id = some rid →
      (processPostItem env st p).ops =
        [StoreOp.update p.id (UpdateArgs.ofUrn rid),
         StoreOp.update p.id (UpdateArgs.ofStatus "published")]) ∧
    (∀ q, (applyUpdate q (UpdateArgs.ofStatus "published")).urn = q.urn ∧
      (applyUpdate q (UpdateArgs.ofStatus "published")).status = "published") := by
  intro env st p res h1 h2 h3 h4 h5
  refine ⟨?_, ?_, ?_⟩
  · intro h6
    simp [processPostItem, executePost, uploadLoop, h1, h2, h3, h4, h5, h6]
  · intro rid h6
    simp [processPostItem, executePost, uploadLoop, h1, h2, h3, h4, h5, h6]
  · intro q
    simp [applyUpdate, UpdateArgs.ofStatus]

/-- C10 witness: with the no-id stub gateway the due post ends published with
its urn still null, through exactly one status update. -/
theorem publish_without_id_still_published_witness :
    processPostItem envNoId [postP1] postP1 =
      ⟨(updateScheduledPost [postP1] 1 (UpdateArgs.ofStatus "published")).1,
       [GwCall.publishPost "hello" []],
       [StoreOp.update 1 (UpdateArgs.ofStatus "published")]⟩ ∧
    (processPostItem envNoId [postP1] postP1).state =
      [⟨1, "p1", "post", "linkedin", "me", "post.md", some 10, "published",
        none, none, none⟩] := by
  have h := publish_without_id_still_published envNoId [postP1] postP1 ⟨none⟩
    rfl rfl rfl rfl rfl
  refine ⟨h.1 rfl, ?_⟩
  rw [h.1 rfl]
  decide

/-- Helper: migration of a record with all five fields present is the
identity. -/
lemma ensurePostFields_of_migrated (p : RawPost) (g : String)
    (h : p.missingAny = false) : ensurePostFields p g = p := by
  cases p with
  | mk id provider author fp pub status uuid ty urn parent blocked =>
    rcases uuid with _ | u <;> rcases ty with _ | t <;>
      rcases urn with _ | uv <;> rcases parent with _ | pv <;>
      rcases blocked with _ | bv <;>
      simp_all [ensurePostFields, RawPost.missingAny]

/-- Helper: migrating an all-migrated record list changes nothing, for any
start index of the enumeration. -/
lemma enumFrom_ensure_of_migrated (gen : Nat → String) :
    ∀ (posts : List RawPost) (n : Nat),
    (∀ p ∈ posts, p.missingAny = false) →
    (List.enumFrom n posts).map (fun ip => ensurePostFields ip.2 (gen ip.1)) =
      posts := by
  intro posts
  induction posts with
  | nil => intro n _; simp
  | cons q rest ih =>
    intro n h
    simp only [List.enumFrom, List.map_cons]
    rw [ensurePostFields_of_migrated q (gen n) (h q (by simp)),
      ih (n + 1) (fun p hp => h p (List.mem_cons_of_mem _ hp))]

/-- C7: lazy migration is idempotent and frame-preserving — on a record with
all five migratable fields present it is the identity and triggers no
write-back; on a legacy record it fills exactly the missing fields with the
defined defaults (kind post, uuid the fresh value, the rest null) and never
alters a present field. -/
theorem lazy_migration_idempotent_and_frame :
    (∀ (p : RawPost) (g : String),
      (p.missingAny = false → ensurePostFields p g = p) ∧
      ((ensurePostFields p g).id = p.id ∧
       (ensurePostFields p g).provider = p.provider ∧
       (ensurePostFields p g).author = p.author ∧
       (ensurePostFields p g).file_path = p.file_path ∧
       (ensurePostFields p g).publish_at = p.publish_at ∧
       (ensurePostFields p g).status = p.status) ∧
      (∀ v, p.uuid = some v → (ensurePostFields p g).uuid = some v) ∧
      (p.uuid = none → (ensurePostFields p g).uuid = some g) ∧
      (∀ v, p.type = some v → (ensurePostFields p g).type = some v) ∧
      (p.type = none → (ensurePostFields p g).type = some "post") ∧
      (∀ v, p.urn = some v → (ensurePostFields p g).urn = some v) ∧
      (p.urn = none → (ensurePostFields p g).urn = some none) ∧
      (∀ v, p.parent_uuid = some v →
        (ensurePostFields p g).parent_uuid = some v) ∧
      (p.parent_uuid = none → (ensurePostFields p g).parent_uuid = some none) ∧
      (∀ v, p.blocked_reason = some v →
        (ensurePostFields p g).blocked_reason = some v) ∧
      (p.blocked_reason = none →
        (ensurePostFields p g).blocked_reason = some none)) ∧
    (∀ (gen : Nat → String) (posts : List RawPost),
      (∀ p ∈ posts, p.missingAny = false) →
      readScheduledPosts gen posts = (posts, false)) := by
  constructor
  · intro p g
    refine ⟨ensurePostFields_of_migrated p g,
      ⟨rfl, rfl, rfl, rfl, rfl, rfl⟩, ?_, ?_, ?_, ?_, ?_, ?_, ?_, ?_, ?_, ?_⟩
    all_goals first
      | (intro v h; simp [ensurePostFields, h])
      | (intro h; simp [ensurePostFields, h])
  · intro gen posts h
    unfold readScheduledPosts
    rw [List.enum]
    refine Prod.ext ?_ ?_
    · simpa using enumFrom_ensure_of_migrated gen posts 0 h
    · simp only [List.any_eq_false]
      intro p hp
      simp [h p hp]

/-- C7 witness: migration of the fully present record is the identity with no
write-back, and on the all-absent legacy record it fills exactly the defined
defaults. -/
theorem lazy_migration_idempotent_and_frame_witness :
    ensurePostFields rawFull "g0" = rawFull ∧
    readScheduledPosts (fun _ => "g0") [rawFull] = ([rawFull], false) ∧
    (ensurePostFields rawLegacy "g0").uuid = some "g0" ∧
    (ensurePostFields rawLegacy "g0").type = some "post" ∧
    (ensurePostFields rawLegacy "g0").urn = some none ∧
    (ensurePostFields rawLegacy "g0").status = rawLegacy.status := by
  have h := lazy_migration_idempotent_and_frame
  obtain ⟨hA, hB, hC1, hC2, hC3, hC4, hC5, hC6, hC7, hC8, hC9, hC10⟩ :=
    h.1 rawLegacy "g0"
  exact ⟨(h.1 rawFull "g0").1 (by decide),
    h.2 (fun _ => "g0") [rawFull] (by decide),
    hC2 rfl, hC4 rfl, hC6 rfl, hB.2.2.2.2.2⟩

/-- Helper: the two complementary filters of a list partition its length. -/
lemma filter_length_partition (l : List Item) (f : Item → Bool) :
    (l.filter f).length + (l.filter fun p => !(f p)).length = l.length := by
  induction l with
  | nil => simp
  | cons a t ih =>
    cases h : f a <;> simp [List.filter_cons, h] <;> omega

/-- Helper: on a record with a present publish_at, the prune filter from the
source agrees with the selection predicate as the spec words it. -/
lemma shouldPrune_eq_spec (status : String) (before after : Option Nat)
    (p : Item) (h : p.publish_at ≠ none) :
    shouldPrune status before after p = specPrunes status before after p := by
  rcases hpa : p.publish_at with _ | t
  · exact absurd hpa h
  · by_cases hs : p.status = status <;>
      cases before <;> cases after <;>
      simp [shouldPrune, specPrunes, hpa, hs]

/-- C8: over a queue of records carrying a publish_at, prune removes exactly
the records whose status matches and whose publish_at lies strictly inside
the given bounds (an absent bound constrains nothing), returns the removed
count, and keeps the document untouched with no write when the count is
zero. -/
theorem prune_removes_exactly_matching :
    ∀ (posts : List Item) (before after : Option Nat) (status : String),
    (∀ p ∈ posts, p.publish_at ≠ none) →
    (pruneScheduledPosts posts before after status).1 =
      posts.filter (fun p => !(specPrunes status before after p)) ∧
    (pruneScheduledPosts posts before after status).2.1 =
      (posts.filter fun p => specPrunes status before after p).length ∧
    ((pruneScheduledPosts posts before after status).2.1 = 0 →
      (pruneScheduledPosts posts before after status).1 = posts ∧
      (pruneScheduledPosts posts before after status).2.2 = false) := by
  intro posts before after status h
  have hfc : (posts.filter fun p => !(shouldPrune status before after p)) =
      posts.filter fun p => !(specPrunes status before after p) :=
    List.filter_congr fun p hp => by
      rw [shouldPrune_eq_spec status before after p (h p hp)]
  have hpart := filter_length_partition posts
    (fun p => specPrunes status before after p)
  have hlen : (posts.filter fun p =>
      !(shouldPrune status before after p)).length =
      (posts.filter fun p => !(specPrunes status before after p)).length := by
    rw [hfc]
  refine ⟨?_, ?_, ?_⟩
  · simpa [pruneScheduledPosts] using hfc
  · simp only [pruneScheduledPosts]
    omega
  · intro h0
    simp only [pruneScheduledPosts] at h0 ⊢
    constructor
    · have hle := List.length_filter_le
        (fun p => !(shouldPrune status before after p)) posts
      have heq : (posts.filter fun p =>
          !(shouldPrune status before after p)).length = posts.length := by
        omega
      exact List.filter_eq_self.mpr (List.filter_length_eq_length.mp heq)
    · simp only [decide_eq_false_iff_not]
      omega

/-- C8 witness, scenario F: pruning published items before 2025-10-22 removes
exactly the 2025-10-15 and 2025-10-20 published items, returns 2, and leaves
the pending 2025-10-18 item and the 2025-10-25 item in place. -/
theorem prune_removes_exactly_matching_witness :
    (pruneScheduledPosts queueF (some 20251022) none "published").1 =
      [⟨3, "f3", "post", "linkedin", "me", "3.md", some 20251025, "published",
        none, none, none⟩,
       ⟨4, "f4", "post", "linkedin", "me", "4.md", some 20251018, "pending",
        none, none, none⟩] ∧
    (pruneScheduledPosts queueF (some 20251022) none "published").2.1 = 2 := by
  have hp := prune_removes_exactly_matching queueF (some 20251022) none
    "published" (by decide)
  exact ⟨hp.1.trans (by decide), hp.2.1.trans (by decide)⟩

/-- Helper: every due item of the snapshot list receives a status update from
the post loop, whatever happens to the items before it. -/
lemma runPostItems_status_mem (env : Env) :
    ∀ (due st : List Item) (p : Item), p ∈ due →
    ∃ s, StoreOp.update p.id (UpdateArgs.ofStatus s) ∈
      (runPostItems env st due).ops := by
  intro due
  induction due with
  | nil => intro st p hp; simp at hp
  | cons q rest ih =>
    intro st p hp
    rcases List.mem_cons.mp hp with h | h
    · subst h
      refine ⟨if (executePost env st p).ok then "published" else "failed", ?_⟩
      simp [runPostItems, processPostItem]
    · obtain ⟨s, hs⟩ := ih (processPostItem env st q).state p h
      exact ⟨s, by simp [runPostItems, hs]⟩

/-- Helper: a publish call never occurs among upload calls. -/
lemma publishPost_not_in_uploads (c : String) (m : List String)
    (f : String → String) (l : List String) (n : Nat) :
    GwCall.publishPost c m ∉
      List.take n (List.map (fun mf => GwCall.uploadMedia (f mf)) l) := by
  intro hm
  obtain ⟨mf, _, heq⟩ := List.mem_map.mp (List.mem_of_mem_take hm)
  simp at heq

/-- C2: media handling is strict-order and all-or-nothing, and item failures
are isolated — the upload calls of the media loop are exactly the declared
prefix up to the first failure in declared order; when the loop fails the
publish attempt is aborted entirely (execute returns false, touches nothing,
and its trace contains no publish call) and the item is marked failed; and
every due item of the phase snapshot receives its own status write, so one
item failing never prevents a sibling from being attempted. -/
theorem media_all_or_nothing_and_item_isolation :
    (∀ (env : Env) (pp : String) (mfs : List String),
      ∃ n ≤ mfs.length, (uploadLoop env pp mfs).2 =
        (mfs.take n).map fun mf => GwCall.uploadMedia (env.resolve pp mf)) ∧
    (∀ (env : Env) (st : List Item) (p : Item),
      (∃ e, (uploadLoop env p.file_path (env.media p.file_path)).1 =
        Except.error e) →
      (executePost env st p).ok = false ∧
      (executePost env st p).state = st ∧
      (∀ c m, GwCall.publishPost c m ∉ (executePost env st p).gw) ∧
      (processPostItem env st p).ops =
        [StoreOp.update p.id (UpdateArgs.ofStatus "failed")]) ∧
    (∀ (env : Env) (st : List Item) (now : Nat) (p : Item),
      p ∈ duePosts st now →
      ∃ s, StoreOp.update p.id (UpdateArgs.ofStatus s) ∈
        (processPosts env st now).ops) := by
  have hA : ∀ (env : Env) (pp : String) (mfs : List String),
      ∃ n ≤ mfs.length, (uploadLoop env pp mfs).2 =
        (mfs.take n).map fun mf => GwCall.uploadMedia (env.resolve pp mf) := by
    intro env pp mfs
    induction mfs with
    | nil => exact ⟨0, by simp, by simp [uploadLoop]⟩
    | cons mf rest ih =>
      by_cases hf : env.fileExists (env.resolve pp mf)
      · cases hu : env.upload (env.resolve pp mf) with
        | error e =>
          exact ⟨1, by simp, by simp [uploadLoop, hf, hu]⟩
        | ok urn =>
          obtain ⟨n, hn, hc⟩ := ih
          exact ⟨n + 1, by simpa using hn, by simp [uploadLoop, hf, hu, hc]⟩
      · exact ⟨0, by simp, by simp [uploadLoop, hf]⟩
  refine ⟨hA, ?_, ?_⟩
  · rintro env st p ⟨e, he⟩
    cases hf : env.fileExists p.file_path with
    | false => simp [executePost, processPostItem, hf]
    | true =>
      cases hp : env.parseOk p.file_path with
      | false => simp [executePost, processPostItem, hf, hp]
      | true =>
        cases hpr : env.providerOk p.provider with
        | false => simp [executePost, processPostItem, hf, hp, hpr]
        | true =>
          rcases hu : uploadLoop env p.file_path (env.media p.file_path) with
            ⟨r1, calls⟩
          rw [hu] at he
          simp only at he
          subst he
          obtain ⟨n, _, hc⟩ := hA env p.file_path (env.media p.file_path)
          rw [hu] at hc
          simp only at hc
          subst hc
          refine ⟨?_, ?_, ?_, ?_⟩
          · simp [executePost, hf, hp, hpr, hu]
          · simp [executePost, hf, hp, hpr, hu]
          · intro c m
            simp only [executePost, hf, hp, hpr, hu]
            simp only [List.map_take] at *
            exact fun hm => publishPost_not_in_uploads c m
              (env.resolve p.file_path) (env.media p.file_path) n
              (by simpa using hm)
          · simp [processPostItem, executePost, hf, hp, hpr, hu]
  · intro env st now p hp
    exact runPostItems_status_mem env (duePosts st now) st p hp

/-- C2 witness: the due post whose declared media file is missing fails with
no gateway call, no state change and a single failed-status write, while its
due sibling without media is still attempted and published in the same
phase. -/
theorem media_all_or_nothing_and_item_isolation_witness :
    (executePost envMediaMissing [postM, postN] postM).ok = false ∧
    (executePost envMediaMissing [postM, postN] postM).state =
      [postM, postN] ∧
    (executePost envMediaMissing [postM, postN] postM).gw = [] ∧
    (processPostItem envMediaMissing [postM, postN] postM).ops =
      [StoreOp.update 1 (UpdateArgs.ofStatus "failed")] ∧
    statusOpIds (processPosts envMediaMissing [postM, postN] 10).ops =
      [1, 2] ∧
    StoreOp.update 2 (UpdateArgs.ofStatus "published") ∈
      (processPosts envMediaMissing [postM, postN] 10).ops := by
  have h := media_all_or_nothing_and_item_isolation
  have hb := h.2.1 envMediaMissing [postM, postN] postM
    ⟨"Media file not found: pic.png", rfl⟩
  exact ⟨hb.1, hb.2.1, by decide, hb.2.2.2, by decide, by decide⟩

/-- Helper: a truthy result pins down the underlying option. -/
lemma truthy_some (o : Option String) (u : String) (h : truthy o = some u) :
    o = some u := by
  cases o with
  | none => simp [truthy] at h
  | some s =>
    by_cases hs : s.isEmpty <;> simp [truthy, hs] at h
    rw [h]

/-- Helper: a falsy option is none or the empty string. -/
lemma truthy_none (o : Option String) (h : truthy o = none) :
    o = none ∨ o = some "" := by
  cases o with
  | none => exact Or.inl rfl
  | some s =>
    by_cases hs : s.isEmpty <;> simp [truthy, hs] at h ⊢
    exact (String.isEmpty_iff s).mp hs

/-- Helper: the kind/parent invariant of an item depends only on its kind and
parent fields. -/
lemma Item.kindOk_congr (p q : Item) (ht : p.type = q.type)
    (hp : p.parent_uuid = q.parent_uuid) : p.kindOk = q.kindOk := by
  unfold Item.kindOk
  rw [ht, hp]

/-- Helper: create either leaves the queue unchanged (an error was raised) or
appends exactly the one new record. -/
lemma create_state_cases (posts : List Item) (provider author fp : String)
    (pub : Nat) (st0 : String) (uuid_str parent_uuid urn br : Option String)
    (post_type gen : String) :
    (createScheduledPost posts provider author fp pub st0 uuid_str post_type
      parent_uuid urn br gen).1 = posts ∨
    (createScheduledPost posts provider author fp pub st0 uuid_str post_type
      parent_uuid urn br gen).1 = posts ++
      [⟨nextId posts, effUuid uuid_str gen, post_type, provider, author, fp,
        some pub, st0, urn, parent_uuid, br⟩] := by
  unfold createScheduledPost
  repeat' split
  all_goals simp

/-- C5 amended: the kind/parent invariant is established at creation (for any
non-empty-string parent argument every record that create adds satisfies it),
is preserved by lazy migration for records that lack both the kind and the
parent_uuid fields or already satisfy it, and is preserved by updates that do
not pass the kind or parent_uuid keywords; migration of a record carrying a
parent_uuid but no kind, or an update passing those keywords, can break it. -/
theorem kind_invariant_amended :
    (∀ (posts : List Item) (provider author fp : String) (pub : Nat)
       (st0 : String) (uuid_str parent_uuid urn br : Option String)
       (post_type gen : String) (r : Nat × String),
      parent_uuid ≠ some "" →
      (createScheduledPost posts provider author fp pub st0 uuid_str post_type
        parent_uuid urn br gen).2 = Except.ok r →
      ∀ p ∈ (createScheduledPost posts provider author fp pub st0 uuid_str
        post_type parent_uuid urn br gen).1,
        p ∈ posts ∨ Item.kindOk p = true) ∧
    (∀ (p : RawPost) (g : String),
      ((p.type = none ∧ p.parent_uuid = none) ∨ RawPost.kindOk p = true) →
      RawPost.kindOk (ensurePostFields p g) = true) ∧
    (∀ (posts : List Item) (pid : Nat) (u : UpdateArgs),
      u.type = none → u.parent_uuid = none →
      (∀ p ∈ posts, Item.kindOk p = true) →
      ∀ p ∈ (updateScheduledPost posts pid u).1, Item.kindOk p = true) := by
  refine ⟨?_, ?_, ?_⟩
  · intro posts provider author fp pub st0 uuid_str parent_uuid urn br
      post_type gen r hne hok p hp
    by_cases hpt : post_type = "post"
    · subst hpt
      rcases htr : truthy parent_uuid with _ | pu
      · have hres : (createScheduledPost posts provider author fp pub st0
            uuid_str "post" parent_uuid urn br gen).1 = posts ++
            [⟨nextId posts, effUuid uuid_str gen, "post", provider, author,
              fp, some pub, st0, urn, parent_uuid, br⟩] := by
          simp [createScheduledPost, htr]
        rw [hres] at hp
        rcases List.mem_append.mp hp with h | h
        · exact Or.inl h
        · right
          have hpn : parent_uuid = none := by
            rcases truthy_none parent_uuid htr with h2 | h2
            · exact h2
            · exact absurd h2 hne
          simp at h
          subst h
          simp [Item.kindOk, hpn]
      · simp [createScheduledPost, htr] at hok
    · by_cases hpc : post_type = "comment"
      · subst hpc
        rcases htr : truthy parent_uuid with _ | pu
        · simp [createScheduledPost, htr] at hok
        · rcases hidx : uuidIndex posts pu with _ | parent
          · simp [createScheduledPost, htr, hidx] at hok
          · rcases hpp : parent.publish_at with _ | pt
            · simp [createScheduledPost, htr, hidx, hpp] at hok
            · by_cases htime : pub < pt + minDelay
              · simp [createScheduledPost, htr, hidx, hpp, htime] at hok
              · have hres : (createScheduledPost posts provider author fp pub
                    st0 uuid_str "comment" parent_uuid urn br gen).1 =
                    posts ++
                    [⟨nextId posts, effUuid uuid_str gen, "comment", provider,
                      author, fp, some pub, st0, urn, parent_uuid, br⟩] := by
                  simp [createScheduledPost, htr, hidx, hpp, htime]
                rw [hres] at hp
                rcases List.mem_append.mp hp with h | h
                · exact Or.inl h
                · right
                  simp at h
                  subst h
                  simp [Item.kindOk, truthy_some parent_uuid pu htr]
      · have h1 : post_type ≠ "post" ∧ post_type ≠ "comment" := ⟨hpt, hpc⟩
        simp [createScheduledPost, h1] at hok
  · intro p g h
    rcases h with ⟨ht, hp⟩ | h
    · simp [ensurePostFields, RawPost.kindOk, ht, hp]
    · have hcases : (p.type = some "post" ∧ p.parent_uuid = some none) ∨
          (∃ u, p.type = some "comment" ∧ p.parent_uuid = some (some u)) := by
        unfold RawPost.kindOk at h
        split at h
        · rename_i ht hp
          exact Or.inl ⟨ht, hp⟩
        · rename_i u ht hp
          exact Or.inr ⟨u, ht, hp⟩
        · simp at h
      rcases hcases with ⟨ht, hp⟩ | ⟨u, ht, hp⟩ <;>
        simp [ensurePostFields, RawPost.kindOk, ht, hp]
  · intro posts pid u hut hup
    induction posts with
    | nil =>
      intro _ p hp
      simp [updateScheduledPost] at hp
    | cons q rest ih =>
      intro hall p hp
      by_cases hq : q.id = pid
      · simp only [updateScheduledPost, if_pos hq] at hp
        rcases List.mem_cons.mp hp with h | h
        · subst h
          have heq : (applyUpdate q u).kindOk = q.kindOk :=
            Item.kindOk_congr _ _ (by simp [applyUpdate, hut])
              (by simp [applyUpdate, hup])
          rw [heq]
          exact hall q (by simp)
        · exact hall p (List.mem_cons_of_mem _ h)
      · simp only [updateScheduledPost, if_neg hq] at hp
        rcases List.mem_cons.mp hp with h | h
        · subst h
          exact hall p (by simp)
        · exact ih (fun p2 hp2 => hall p2 (List.mem_cons_of_mem _ hp2)) p h

/-- C5 amended witness: the record created for a plain post satisfies the
invariant, migration of the all-absent legacy record satisfies it, and a
status-only update over a satisfying queue keeps it satisfied. -/
theorem kind_invariant_amended_witness :
    ((⟨1, "gen", "post", "linkedin", "me", "a.md", some 5, "pending", none,
        none, none⟩ : Item) ∈ ([] : List Item) ∨
      Item.kindOk ⟨1, "gen", "post", "linkedin", "me", "a.md", some 5,
        "pending", none, none, none⟩ = true) ∧
    RawPost.kindOk (ensurePostFields rawLegacy "g0") = true ∧
    Item.kindOk (applyUpdate postP1 (UpdateArgs.ofStatus "failed")) = true := by
  have h := kind_invariant_amended
  refine ⟨h.1 [] "linkedin" "me" "a.md" 5 "pending" none none none none
      "post" "gen" (1, "gen") (by simp) rfl _ (by decide),
    h.2.1 rawLegacy "g0" (Or.inl ⟨rfl, rfl⟩),
    h.2.2 [postP1] 1 (UpdateArgs.ofStatus "failed") rfl rfl (by decide) _
      (by decide)⟩

/-- Helper: the last-wins fold of the uuid index either keeps its accumulator
(no record matches) or lands on some matching record of the list. -/
lemma uuidIndex_fold_cases (u : String) :
    ∀ (ps : List Item) (acc : Option Item),
    (ps.foldl (fun a p => if p.uuid = u then some p else a) acc = acc ∧
      ∀ p ∈ ps, p.uuid ≠ u) ∨
    (∃ x, ps.foldl (fun a p => if p.uuid = u then some p else a) acc =
        some x ∧ x ∈ ps ∧ x.uuid = u) := by
  intro ps
  induction ps with
  | nil => intro acc; exact Or.inl ⟨rfl, by simp⟩
  | cons q tl ih =>
    intro acc
    by_cases hq : q.uuid = u
    · rcases ih (some q) with ⟨hf, hnone⟩ | ⟨x, hf, hx, hxu⟩
      · exact Or.inr ⟨q, by simp [List.foldl_cons, hq, hf], by simp, hq⟩
      · exact Or.inr ⟨x, by simp [List.foldl_cons, hq, hf],
          List.mem_cons_of_mem _ hx, hxu⟩
    · rcases ih acc with ⟨hf, hnone⟩ | ⟨x, hf, hx, hxu⟩
      · refine Or.inl ⟨by simp [List.foldl_cons, hq, hf], ?_⟩
        intro p hp
        rcases List.mem_cons.mp hp with h | h
        · subst h; exact hq
        · exact hnone p h
      · exact Or.inr ⟨x, by simp [List.foldl_cons, hq, hf],
          List.mem_cons_of_mem _ hx, hxu⟩

/-- C6 amended: uuid-to-item stays a bijection as long as the uuid entering a
create call is fresh — create appends exactly one record carrying the chosen
uuid (supplied or generated) and preserves uuid uniqueness when that uuid is
new, and under uuid uniqueness the index maps each uuid to exactly the one
item carrying it; create performs no collision check of its own on a
caller-supplied uuid. -/
theorem uuid_bijection_amended :
    (∀ (posts : List Item) (provider author fp : String) (pub : Nat)
       (st0 : String) (uuid_str parent_uuid urn br : Option String)
       (post_type gen : String),
      effUuid uuid_str gen ∉ posts.map (fun p => p.uuid) →
      (posts.map (fun p => p.uuid)).Nodup →
      (((createScheduledPost posts provider author fp pub st0 uuid_str
          post_type parent_uuid urn br gen).1).map
            (fun p => p.uuid)).Nodup) ∧
    (∀ (posts : List Item) (u : String) (pI : Item),
      (posts.map (fun p => p.uuid)).Nodup →
      (uuidIndex posts u = some pI ↔ pI ∈ posts ∧ pI.uuid = u)) := by
  constructor
  · intro posts provider author fp pub st0 uuid_str parent_uuid urn br
      post_type gen hfresh hnd
    rcases create_state_cases posts provider author fp pub st0 uuid_str
        parent_uuid urn br post_type gen with h | h <;> rw [h]
    · exact hnd
    · simp only [List.map_append, List.map_cons, List.map_nil]
      rw [List.nodup_append]
      exact ⟨hnd, List.nodup_singleton _, by simpa using hfresh⟩
  · intro posts u pI hnd
    constructor
    · intro hidx
      rcases uuidIndex_fold_cases u posts none with ⟨hf, _⟩ |
          ⟨x, hf, hx, hxu⟩
      · rw [uuidIndex] at hidx
        rw [hf] at hidx
        exact absurd hidx (by simp)
      · rw [uuidIndex] at hidx
        rw [hf] at hidx
        obtain rfl : x = pI := by simpa using hidx
        exact ⟨hx, hxu⟩
    · rintro ⟨hmem, huu⟩
      rcases uuidIndex_fold_cases u posts none with ⟨hf, hnone⟩ |
          ⟨x, hf, hx, hxu⟩
      · exact absurd huu (hnone pI hmem)
      · have hxp : x = pI :=
          List.inj_on_of_nodup_map hnd hx hmem (hxu.trans huu.symm)
        rw [uuidIndex, hf, hxp]

/-- C6 amended witness: creating with a generated fresh uuid over the one-item
queue preserves uuid uniqueness, and the index of that queue maps u0 exactly
to its item. -/
theorem uuid_bijection_amended_witness :
    (((createScheduledPost queueU0 "linkedin" "me" "b.md" 6 "pending" none
        "post" none none none "gen-1").1).map (fun p => p.uuid)).Nodup ∧
    (uuidIndex queueU0 "u0" =
        some ⟨1, "u0", "post", "linkedin", "me", "a.md", some 5, "pending",
          none, none, none⟩ ↔
      (⟨1, "u0", "post", "linkedin", "me", "a.md", some 5, "pending", none,
          none, none⟩ : Item) ∈ queueU0 ∧
      (⟨1, "u0", "post", "linkedin", "me", "a.md", some 5, "pending", none,
          none, none⟩ : Item).uuid = "u0") := by
  have h := uuid_bijection_amended
  exact ⟨h.1 queueU0 "linkedin" "me" "b.md" 6 "pending" none none none none
      "post" "gen-1" (by decide) (by decide),
    h.2 queueU0 "u0" _ (by decide)⟩

/-- Helper: membership in a stable insertion. -/
lemma mem_insertLe {α : Type} (le : α → α → Bool) (a x : α) :
    ∀ l, x ∈ insertLe le a l ↔ x = a ∨ x ∈ l := by
  intro l
  induction l with
  | nil => simp [insertLe]
  | cons b bs ih =>
    by_cases h : le a b <;> simp [insertLe, h, ih] <;> tauto

/-- Helper: the stable sort permutes membership. -/
lemma mem_sortByLe {α : Type} (le : α → α → Bool) (x : α) :
    ∀ l, x ∈ sortByLe le l ↔ x ∈ l := by
  intro l
  induction l with
  | nil => simp [sortByLe]
  | cons a as ih =>
    simp [sortByLe, mem_insertLe, ih]

/-- Helper: inserting an element that the base relation Q places after the
whole list preserves the stable-order invariant. -/
lemma pairwise_insertLe_stable {α : Type} (key : α → Nat) (Q : α → α → Prop)
    (le : α → α → Bool) (hle : ∀ a b, le a b = true ↔ key a ≤ key b) (a : α) :
    ∀ l, List.Pairwise (keyStable key Q) l → (∀ c ∈ l, Q a c) →
      List.Pairwise (keyStable key Q) (insertLe le a l) := by
  intro l
  induction l with
  | nil =>
    intro _ _
    simp [insertLe]
  | cons b bs ih =>
    intro hpw hQ
    rcases List.pairwise_cons.mp hpw with ⟨hb, hbs⟩
    by_cases hab : le a b = true
    · rw [insertLe, if_pos hab]
      have hkab : key a ≤ key b := (hle a b).mp hab
      refine List.pairwise_cons.mpr ⟨?_, hpw⟩
      intro c hc
      rcases List.mem_cons.mp hc with h | hcbs
      · subst h
        rcases Nat.lt_or_ge (key a) (key c) with hlt | hge
        · exact Or.inl hlt
        · exact Or.inr ⟨Nat.le_antisymm hkab hge, hQ c (by simp)⟩
      · have hkbc : key b ≤ key c := by
          rcases hb c hcbs with h | ⟨h, _⟩
          · exact Nat.le_of_lt h
          · exact Nat.le_of_eq h
        rcases Nat.lt_or_ge (key a) (key c) with hlt | hge
        · exact Or.inl hlt
        · exact Or.inr ⟨Nat.le_antisymm (Nat.le_trans hkab hkbc) hge,
            hQ c (List.mem_cons_of_mem _ hcbs)⟩
    · rw [insertLe, if_neg (by simpa using hab)]
      have hkba : key b < key a :=
        Nat.lt_of_not_le fun hc => hab ((hle a b).mpr hc)
      refine List.pairwise_cons.mpr
        ⟨?_, ih hbs fun c hc => hQ c (List.mem_cons_of_mem _ hc)⟩
      intro x hx
      rcases (mem_insertLe le a x bs).mp hx with h | hxbs
      · subst h
        exact Or.inl hkba
      · exact hb x hxbs

/-- Helper: the stable sort turns a Pairwise base relation into the
key-then-input-order relation, which is exactly stability. -/
lemma pairwise_sortByLe_stable {α : Type} (key : α → Nat) (Q : α → α → Prop)
    (le : α → α → Bool) (hle : ∀ a b, le a b = true ↔ key a ≤ key b) :
    ∀ l, List.Pairwise Q l →
      List.Pairwise (keyStable key Q) (sortByLe le l) := by
  intro l
  induction l with
  | nil =>
    intro _
    simp [sortByLe]
  | cons a as ih =>
    intro hpw
    rcases List.pairwise_cons.mp hpw with ⟨ha, has⟩
    rw [sortByLe]
    refine pairwise_insertLe_stable key Q le hle a (sortByLe le as)
      (ih has) ?_
    intro c hc
    exact ha c ((mem_sortByLe le c as).mp hc)

/-- Helper: the trivially true relation is pairwise on any list. -/
lemma pairwise_trivial {α : Type} (l : List α) :
    List.Pairwise (fun _ _ => True) l := by
  induction l with
  | nil => exact List.Pairwise.nil
  | cons a t ih => exact List.Pairwise.cons (fun _ _ => trivial) ih

/-- Helper: status updates distribute over trace concatenation. -/
lemma statusOpIds_append (a b : List StoreOp) :
    statusOpIds (a ++ b) = statusOpIds a ++ statusOpIds b := by
  simp [statusOpIds]

/-- Helper: executing one post performs no status write of its own (only the
optional urn write-back). -/
lemma statusOpIds_executePost (env : Env) (st : List Item) (p : Item) :
    statusOpIds (executePost env st p).ops = [] := by
  unfold executePost
  cases hf : env.fileExists p.file_path
  · simp [statusOpIds]
  · cases hp : env.parseOk p.file_path
    · simp [statusOpIds]
    · cases hpr : env.providerOk p.provider
      · simp [statusOpIds]
      · rcases hu : uploadLoop env p.file_path (env.media p.file_path) with
          ⟨r, calls⟩
        cases r with
        | error e => simp [hu, statusOpIds]
        | ok mediaIds =>
          by_cases hlen : mediaIds.length = (env.media p.file_path).length
          · cases hpost : env.post (env.content p.file_path) mediaIds with
            | error e => simp [hu, hlen, hpost, statusOpIds]
            | ok res =>
              cases hid : res.id with
              | some rid =>
                simp [hu, hlen, hpost, hid, statusOpIds, UpdateArgs.ofUrn]
              | none => simp [hu, hlen, hpost, hid, statusOpIds]
          · simp [hu, hlen, statusOpIds]

/-- Helper: one due-post iteration writes exactly one status, for its own
item. -/
lemma statusOpIds_processPostItem (env : Env) (st : List Item) (p : Item) :
    statusOpIds (processPostItem env st p).ops = [p.id] := by
  unfold processPostItem
  simp only [statusOpIds_append, statusOpIds_executePost]
  simp [statusOpIds, UpdateArgs.ofStatus]

/-- Helper: the post loop writes statuses in exactly the order of its snapshot
list. -/
lemma statusOpIds_runPostItems (env : Env) :
    ∀ (due st : List Item),
    statusOpIds (runPostItems env st due).ops = due.map (fun p => p.id) := by
  intro due
  induction due with
  | nil =>
    intro st
    simp [runPostItems, statusOpIds]
  | cons q rest ih =>
    intro st
    simp [runPostItems, statusOpIds_append, statusOpIds_processPostItem, ih]

/-- Helper: the three filters of the post phase are one stored-order pass. -/
lemma duePosts_eq_filter (st : List Item) (now : Nat) :
    duePosts st now = st.filter
      (fun p => p.status = "pending" && p.type = "post" && dueAt p now) := by
  unfold duePosts
  simp only [List.filter_filter]
  refine List.filter_congr fun x _ => ?_
  cases h1 : (decide (x.status = "pending")) <;>
    cases h2 : (decide (x.type = "post")) <;>
    cases h3 : dueAt x now <;> simp [h1, h2, h3]

/-- C9 corrected ordering: the post phase processes the due pending posts in
stored order — one status write per due item, in exactly the order of the
stored-order filter, with no sort by publish_at — while the comment phase
iterates the due pending comments sorted by publish_at ascending, the sort
being stable so that equal publish_at comments keep their stored order (id
ascending when the store list is id-ascending). -/
theorem cycle_ordering_amended :
    (∀ (env : Env) (st : List Item) (now : Nat),
      statusOpIds (processPosts env st now).ops =
        (duePosts st now).map (fun p => p.id) ∧
      duePosts st now = st.filter
        (fun p => p.status = "pending" && p.type = "post" && dueAt p now)) ∧
    (∀ (posts : List Item) (now : Nat),
      List.Pairwise (fun a b => pubKey a ≤ pubKey b)
        (getPendingComments posts now)) ∧
    (∀ (posts : List Item) (now : Nat),
      List.Pairwise (fun a b => a.id < b.id) posts →
      List.Pairwise (keyStable pubKey (fun a b => a.id < b.id))
        (getPendingComments posts now)) := by
  refine ⟨?_, ?_, ?_⟩
  · intro env st now
    exact ⟨by simp [processPosts, statusOpIds_runPostItems],
      duePosts_eq_filter st now⟩
  · intro posts now
    have h3 : List.Pairwise (keyStable pubKey (fun _ _ => True))
        (getPendingComments posts now) := by
      unfold getPendingComments
      exact pairwise_sortByLe_stable pubKey (fun _ _ => True) _
        (fun a b => by simp) _ (pairwise_trivial _)
    refine h3.imp ?_
    intro a b h
    rcases h with h | ⟨h, _⟩
    · exact Nat.le_of_lt h
    · exact Nat.le_of_eq h
  · intro posts now hpnd
    have hQf : List.Pairwise (fun a b : Item => a.id < b.id)
        (posts.filter fun p =>
          p.type = "comment" && p.status = "pending" && dueAt p now) :=
      hpnd.sublist (List.filter_sublist posts)
    unfold getPendingComments
    exact pairwise_sortByLe_stable pubKey _ _ (fun a b => by simp) _ hQf

/-- C9 amended witness: over the chain queue the post phase writes exactly the
one due post status, and the comment list of a three-item id-ascending queue
is stably sorted by publish_at. -/
theorem cycle_ordering_amended_witness :
    statusOpIds (processPosts envOk [postP1, commentC1] 30).ops = [1] ∧
    List.Pairwise (keyStable pubKey (fun a b => a.id < b.id))
      (getPendingComments [postP1, commentC1, orphanComment] 30) := by
  have h := cycle_ordering_amended
  exact ⟨((h.1 envOk [postP1, commentC1] 30).1).trans (by decide),
    h.2.2 [postP1, commentC1, orphanComment] 30 (by decide)⟩
